import Mathlib

/-!
Verification of the DL-ImageCaptioning data pipeline
(`src/dataset/flickr_dataset.py`, `src/utils/utils.py`, `src/utils/callbacks.py`):
tokenization, vocabulary construction, sample loading, batch collation and the
early-stopping callback, shallowly embedded in Lean.
-/

/- ------------------------------------------------------------------ -/
/- Tokenizer (flickr_dataset.py lines 102-104, utils.py lines 38-40)  -/
/- ------------------------------------------------------------------ -/

/-- Splitting of a character list on whitespace, discarding empty pieces:
the behaviour of Python `str.split()` with no argument.  The accumulator
holds the current word reversed. -/
def wordsAux : List Char → List Char → List (List Char)
  | [], acc => if acc.isEmpty then [] else [acc.reverse]
  | c :: cs, acc =>
    if c.isWhitespace then
      if acc.isEmpty then wordsAux cs [] else acc.reverse :: wordsAux cs []
    else wordsAux cs (c :: acc)

/-- Python `caption.split()`. -/
def pySplit (s : String) : List String :=
  (wordsAux s.data []).map String.mk

/-- Python `token.isalnum()`: non-empty and every character alphanumeric. -/
def pyIsAlnum (s : String) : Bool :=
  !s.data.isEmpty && s.data.all Char.isAlphanum

/-- Python `re.sub(r'[^a-zA-Z0-9]', '', token.lower())`: lowercase, then keep
only the characters in `[a-zA-Z0-9]`. -/
def stripAndLower (s : String) : String :=
  String.mk ((s.data.map Char.toLower).filter Char.isAlphanum)

/-- The caption tokenization of `FlickrConvRNN.__getitem__` (lines 102-104),
identical to the one in `get_vocabulary` (utils.py lines 38-40):
split on whitespace, keep only pieces that are alphanumeric as a whole,
lowercase and strip non-alphanumerics, then drop empty tokens. -/
def tokenize (caption : String) : List String :=
  let tokens := pySplit caption
  let tokens := (tokens.filter pyIsAlnum).map stripAndLower
  tokens.filter (fun t => t.data.length != 0)

/-- Python `str.strip()`: drop leading and trailing whitespace
(utils.py line 37, flickr_dataset.py line 76). -/
def pyStrip (s : String) : String :=
  String.mk (((s.data.dropWhile Char.isWhitespace).reverse.dropWhile
      Char.isWhitespace).reverse)

/- ------------------------------------------------------------------ -/
/- Reserved tokens (dataset/enums.py, not in the sources)             -/
/- ------------------------------------------------------------------ -/

/-- Modelled from the spec: the module `dataset/enums.py` that defines the
reserved control tokens is not among the sources.  The spec fixes four
distinct reserved tokens `PAD`, `UNK`, `START`, `END` with ids 0-3.  The
concrete strings are chosen with non-alphanumeric characters so that no
tokenizer output can collide with them, matching the usual convention. -/
def PAD : String := "<pad>"

/-- Modelled from the spec: the reserved unknown-word token (see `PAD`). -/
def UNK_WORD : String := "<unk>"

/-- Modelled from the spec: the reserved start-of-sequence token (see `PAD`). -/
def START_SEQ : String := "<start>"

/-- Modelled from the spec: the reserved end-of-sequence token (see `PAD`). -/
def END_SEQ : String := "<end>"

/- ------------------------------------------------------------------ -/
/- Vocabulary (flickr_dataset.py lines 13-46)                         -/
/- ------------------------------------------------------------------ -/

/-- The `Vocabulary` class state: `word2idx` and `idx2word` are Python dicts,
modelled as insertion-ordered association lists (lookup finds the first
matching key; a fresh key is appended). -/
structure Vocabulary where
  word2idx : List (String × Nat)
  idx2word : List (Nat × String)
  idx : Nat
deriving Repr, DecidableEq

/-- `Vocabulary.__init__`: the four reserved entries with ids 0-3, and the
next fresh id 4.  (`idx2word` is built in the source by inverting `word2idx`;
with the four distinct values 0-3 that is the list written here.) -/
def vocabInit : Vocabulary :=
  { word2idx := [(PAD, 0), (UNK_WORD, 1), (START_SEQ, 2), (END_SEQ, 3)],
    idx2word := [(0, PAD), (1, UNK_WORD), (2, START_SEQ), (3, END_SEQ)],
    idx := 4 }

/-- `Vocabulary.add_word`: insert the word with the next fresh id when it is
not already present, else do nothing. -/
def addWord (v : Vocabulary) (word : String) : Vocabulary :=
  if (v.word2idx.lookup word).isSome then v
  else
    { word2idx := v.word2idx ++ [(word, v.idx)],
      idx2word := v.idx2word ++ [(v.idx, word)],
      idx := v.idx + 1 }

/-- `Vocabulary.__call__`: the word's id when present, else the id stored for
`UNK_WORD` (a dict access, hence `Option`: `none` models a `KeyError`, which
cannot occur on vocabularies built through `__init__`/`add_word`). -/
def vocabCall (v : Vocabulary) (word : String) : Option Nat :=
  match v.word2idx.lookup word with
  | some i => some i
  | none => v.word2idx.lookup UNK_WORD

/-- `Vocabulary.encode_seq`: encode each token in order; a failing dict
access anywhere fails the whole call. -/
def encode_seq (v : Vocabulary) (seq : List String) : Option (List Nat) :=
  seq.mapM (vocabCall v)

/-- `Vocabulary.decode_seq`: `idx2word` access for each id in order; an id
with no mapping is a `KeyError` (`none`). -/
def decode_seq (v : Vocabulary) (seqIdx : List Nat) : Option (List String) :=
  seqIdx.mapM (fun i => v.idx2word.lookup i)

/-- Vocabularies reachable from `__init__` by a sequence of `add_word` calls. -/
def buildFromWords (ws : List String) : Vocabulary :=
  ws.foldl addWord vocabInit

/-- A vocabulary is `Reachable` when some sequence of `add_word` calls on a
freshly constructed `Vocabulary` produces it. -/
def Reachable (v : Vocabulary) : Prop :=
  ∃ ws : List String, v = buildFromWords ws

/- ------------------------------------------------------------------ -/
/- get_vocabulary (utils.py lines 28-50)                              -/
/- ------------------------------------------------------------------ -/

/-- One `token_counts[token] += 1` on a `defaultdict(int)`: increment the
count in place when the key exists, else append it with count 1. -/
def counterAdd : List (String × Nat) → String → List (String × Nat)
  | [], t => [(t, 1)]
  | (k, c) :: rest, t =>
    if k == t then (k, c + 1) :: rest else (k, c) :: counterAdd rest t

/-- The corpus-wide token counter of `get_vocabulary`: each record's comment
is stripped, tokenized, and its tokens counted in encounter order. -/
def tokenCounts (comments : List String) : List (String × Nat) :=
  comments.foldl (fun tc comment => (tokenize (pyStrip comment)).foldl counterAdd tc) []

/-- `get_vocabulary` (with the corpus abstracted to the list of raw comment
strings of the CSV records, in file order): count tokens, then `add_word`
every token whose count is at least 5, in counter (first-encountered) order. -/
def get_vocabulary (comments : List String) : Vocabulary :=
  (tokenCounts comments).foldl
    (fun v tc => if tc.2 ≥ 5 then addWord v tc.1 else v) vocabInit

/-- The tokens `get_vocabulary` passes to `add_word`: counter entries with
count at least 5, in counter (= first-encountered) order. -/
def qualifyingTokens (comments : List String) : List String :=
  ((tokenCounts comments).filter (fun tc => tc.2 ≥ 5)).map Prod.fst

/- ------------------------------------------------------------------ -/
/- FlickrConvRNN.__getitem__ (flickr_dataset.py lines 50-121)         -/
/- ------------------------------------------------------------------ -/

/-- The state a constructed `FlickrConvRNN` carries into `__getitem__`.
Images and transforms are external collaborators: an image is modelled by
its identifier string.  `labels` is the `defaultdict(list)` built in
`__init__` from the CSV rows of the active split, keyed by image name. -/
structure FlickrState where
  image_ids : List String
  labels : List (String × List String)
  first_caption_only : Bool
  vocab : Vocabulary

/-- Access to the `defaultdict(list)` of labels: a missing key yields `[]`. -/
def labelsOf (labels : List (String × List String)) (key : String) : List String :=
  (labels.lookup key).getD []

/-- The dictionary returned by `__getitem__`. -/
structure SampleOut where
  images : List String
  captions : List (List Nat)
  all_captions : List (List String)
deriving Repr, DecidableEq

/-- The caption loop of `__getitem__` (lines 100-114), at loop index `i`:
tokenize, wrap with `START_SEQ`/`END_SEQ`, and append the encoding to
`encoded_captions` only when `first_caption_only and i == 0`. -/
def captionLoop (fco : Bool) (v : Vocabulary) :
    List String → Nat → Option (List (List Nat) × List (List String))
  | [], _ => some ([], [])
  | caption :: rest, i => do
    let cap := START_SEQ :: (tokenize caption ++ [END_SEQ])
    let encHead ←
      if fco && i == 0 then (encode_seq v cap).map (fun e => [e]) else some []
    let (encRest, allRest) ← captionLoop fco v rest (i + 1)
    pure (encHead ++ encRest, cap :: allRest)

/-- `FlickrConvRNN.__getitem__`: load the image (one copy in first-caption-only
mode, five copies otherwise, line 92-94), look the captions up in the
`defaultdict`, run the caption loop, and return the sample dictionary.
`none` models an uncaught exception (index or dict `KeyError`). -/
def getitem (st : FlickrState) (idx : Nat) : Option SampleOut := do
  let imageId ← st.image_ids.get? idx
  let images := if st.first_caption_only then [imageId] else List.replicate 5 imageId
  let captions := labelsOf st.labels imageId
  let (enc, all) ← captionLoop st.first_caption_only st.vocab captions 0
  pure { images := images, captions := enc, all_captions := all }

/- ------------------------------------------------------------------ -/
/- BatchCollateFn.__call__ (flickr_dataset.py lines 124-151)          -/
/- ------------------------------------------------------------------ -/

/-- Python `max` on a list of naturals: fails on the empty list. -/
def listMax? : List Nat → Option Nat
  | [] => none
  | x :: xs => some (xs.foldl Nat.max x)

/-- The batch produced by `BatchCollateFn.__call__`: the stacked image
tensor (as the ordered list of images), the padded caption matrix (as a
list of rows), the true lengths, and the nested raw captions. -/
structure Batch where
  images : List String
  captions_padded : List (List Nat)
  lengths : List Nat
  all_captions : List (List (List String))
deriving Repr, DecidableEq

/-- The ways `BatchCollateFn.__call__` raises: `torch.vstack` on an empty
image list (line 143), and `max` on an empty length list (line 146) — the
spec's `EmptyBatchError` condition. -/
inductive CollateError where
  | emptyImages
  | emptyLengths
deriving Repr, DecidableEq

/-- `BatchCollateFn.__call__`: flatten images and encoded captions across the
samples in order, record true lengths, and right-pad every caption with the
`PAD` id 0 to the batch maximum length.  (`caption ++ pad` is the zero-filled
row of line 146 with columns `0..length` overwritten at line 149; a caption is
never longer than the maximum, so nothing is truncated.) -/
def batchCollate (data : List SampleOut) : Except CollateError Batch :=
  let images := (data.map SampleOut.images).flatten
  let captions := (data.map SampleOut.captions).flatten
  let lengths := captions.map List.length
  let allCaps := data.map SampleOut.all_captions
  if images.isEmpty then Except.error CollateError.emptyImages
  else
    match listMax? lengths with
    | none => Except.error CollateError.emptyLengths
    | some maxLen =>
      Except.ok
        { images := images,
          captions_padded :=
            captions.map (fun c => c ++ List.replicate (maxLen - c.length) 0),
          lengths := lengths,
          all_captions := allCaps }

/- ------------------------------------------------------------------ -/
/- EarlyStopping (callbacks.py lines 10-94)                           -/
/- ------------------------------------------------------------------ -/

/-- The state of an `EarlyStopping` callback (scores are modelled as exact
rationals; the comparison logic does not depend on rounding). -/
structure EarlyStopping where
  mode : String
  threshold : Rat
  best_score : Rat
  num_bad_epoch : Nat
  patience : Nat
deriving Repr, DecidableEq

/-- `EarlyStopping.__init__` with `mode="max"`: `best_score` starts at 0.0.
(The `mode="min"` initial value `float("inf")` has no rational counterpart
and is outside the properties considered here.) -/
def earlyStoppingInit (patience : Nat) (threshold : Rat) : EarlyStopping :=
  { mode := "max", threshold := threshold, best_score := 0,
    num_bad_epoch := 0, patience := patience }

/-- `Callbacks.better_score`: `score - best > threshold` for `"max"`,
`best - score > threshold` for `"min"`, and Python's implicit `None`
(modelled `none`) for any other mode string. -/
def better_score (s : EarlyStopping) (score : Rat) : Option Bool :=
  if s.mode == "max" then some (decide (score - s.best_score > s.threshold))
  else if s.mode == "min" then some (decide (s.best_score - score > s.threshold))
  else none

/-- `EarlyStopping.__call__` (checkpoint saving and logging are external
side effects): on improvement record the new best and reset the bad-epoch
counter, returning `True`; otherwise count a bad epoch and return `False`
exactly when the patience is exhausted.  The `if` takes the improvement
branch exactly when `better_score` is truthy (`some true`). -/
def esCall (s : EarlyStopping) (score : Rat) : EarlyStopping × Bool :=
  if better_score s score == some true then
    ({ s with best_score := score, num_bad_epoch := 0 }, true)
  else
    let s2 := { s with num_bad_epoch := s.num_bad_epoch + 1 }
    if s2.num_bad_epoch ≥ s2.patience then (s2, false) else (s2, true)

/-- A sequence of `__call__` invocations, keeping only the evolving state. -/
def esRun (s : EarlyStopping) (scores : List Rat) : EarlyStopping :=
  scores.foldl (fun st sc => (esCall st sc).1) s

/- ------------------------------------------------------------------ -/
/- Concrete fixtures used by witnesses and counterexamples            -/
/- ------------------------------------------------------------------ -/

/-- A one-image dataset in full mode (`first_caption_only = False`) whose
single image has one raw caption. -/
def fullModeState : FlickrState :=
  { image_ids := ["img1.jpg"],
    labels := [("img1.jpg", ["A dog runs"])],
    first_caption_only := false,
    vocab := buildFromWords ["a", "dog", "runs"] }

/-- A second full-mode dataset, for the batch-alignment experiment. -/
def alignState : FlickrState :=
  { image_ids := ["beach.jpg"],
    labels := [("beach.jpg", ["Kids play ball"])],
    first_caption_only := false,
    vocab := buildFromWords ["kids", "play", "ball"] }

/-- The sample `alignState` produces for index 0: five image copies and no
encoded captions. -/
def alignSample : SampleOut :=
  { images := List.replicate 5 "beach.jpg",
    captions := [],
    all_captions := [[START_SEQ, "kids", "play", "ball", END_SEQ]] }

/-- A dataset whose only image identifier has no captions in `labels`. -/
def noCaptionsState : FlickrState :=
  { image_ids := ["lonely.jpg"],
    labels := [],
    first_caption_only := true,
    vocab := vocabInit }

/-- A second no-caption dataset, in full mode. -/
def noCaptionsFullState : FlickrState :=
  { image_ids := ["alone.jpg"],
    labels := [("other.jpg", ["Some caption"])],
    first_caption_only := false,
    vocab := vocabInit }

/-- Three collate inputs whose encoded captions have lengths 3, 5 and 2. -/
def sampleLen3 : SampleOut :=
  { images := ["i1"], captions := [[2, 5, 3]], all_captions := [["x"]] }

/-- See `sampleLen3`. -/
def sampleLen5 : SampleOut :=
  { images := ["i2"], captions := [[2, 9, 9, 9, 3]], all_captions := [["y"]] }

/-- See `sampleLen3`. -/
def sampleLen2 : SampleOut :=
  { images := ["i3"], captions := [[2, 3]], all_captions := [["z"]] }

/-- A small corpus in which "dog" occurs exactly 5 times (the threshold)
and "cat" exactly 4 times (threshold − 1). -/
def boundaryCorpus : List String :=
  ["dog dog", "dog dog dog cat", "cat cat cat"]

/-- The three-sample collate input with caption lengths `[3, 5, 2]`. -/
def lenData : List SampleOut := [sampleLen3, sampleLen5, sampleLen2]

/-- The batch the collate function produces from `lenData`. -/
def lenBatch : Batch :=
  { images := ["i1", "i2", "i3"],
    captions_padded := [[2, 5, 3, 0, 0], [2, 9, 9, 9, 3], [2, 3, 0, 0, 0]],
    lengths := [3, 5, 2],
    all_captions := [[["x"]], [["y"]], [["z"]]] }

/- ------------------------------------------------------------------ -/
/- Theorems                                                           -/
/- ------------------------------------------------------------------ -/

/-- Claim C2, counterexample: tokenizing `"A cat, sitting!"` does not give
`["a", "cat", "sitting"]` — the `token.isalnum()` filter runs before the
stripping substitution, so `"cat,"` and `"sitting!"` are dropped whole. -/
theorem c2_tokenize_counterexample :
    tokenize "A cat, sitting!" ≠ ["a", "cat", "sitting"] := by decide

/-- Claim C2, amended: tokenizing `"A cat, sitting!"` yields exactly `["a"]`:
a whitespace piece containing any non-alphanumeric character fails the
`isalnum()` filter and is dropped before stripping can happen, so only the
piece `"A"` survives, lowercased. -/
theorem c2_tokenize_amended :
    tokenize "A cat, sitting!" = ["a"] := by decide

/-- Claim C4: assembling a batch from an empty list of samples fails (the
`EmptyBatchError` condition: `torch.vstack` raises on the empty image list
before any padded buffer is produced) rather than returning a batch. -/
theorem c4_empty_batch_fails :
    batchCollate [] = Except.error CollateError.emptyImages := rfl

/-- Claim C1, code bug: in full mode (`first_caption_only = False`) the
sample loader encodes no caption at all — the guard on line 111 reads
`if self.first_caption_only and i == 0`, so the encoding branch is
unreachable in full mode.  On a sample with one raw caption the returned
`captions` list is empty instead of holding one encoded sequence per raw
caption. -/
theorem c1_full_mode_encodes_nothing :
    getitem fullModeState 0 =
      some { images := List.replicate 5 "img1.jpg",
             captions := [],
             all_captions := [[START_SEQ, "a", "dog", "runs", END_SEQ]] } := by
  decide

/-- Claim C3, code bug: in full mode a sample contributes five stacked
images but zero encoded captions, so the image rows and caption rows of a
batch cannot be index-aligned; collating such a (non-empty) batch in fact
fails on `max` of the empty length list. -/
theorem c3_full_mode_misaligned :
    getitem alignState 0 = some alignSample ∧
    alignSample.images.length = 5 ∧
    alignSample.captions.length = 0 ∧
    batchCollate [alignSample] = Except.error CollateError.emptyLengths := by
  refine ⟨by decide, rfl, rfl, rfl⟩

/-- Claim C5, counterexample: fetching a sample whose image identifier has
zero associated captions does not fail — `self.labels` is a
`defaultdict(list)`, so the lookup yields `[]` and `__getitem__` returns
normally with empty caption lists. -/
theorem c5_missing_captions_counterexample :
    getitem noCaptionsState 0 =
      some { images := ["lonely.jpg"], captions := [], all_captions := [] } := by
  decide

/-- Claim C5, amended: for every image identifier with zero associated
captions, fetching the sample succeeds and returns empty `captions` and
`all_captions` lists (one or five copies of the image according to the
mode); no `MissingCaptionsError` — or any error — is raised. -/
theorem c5_missing_captions_amended (st : FlickrState) (idx : Nat) (imageId : String)
    (hidx : st.image_ids.get? idx = some imageId)
    (hlab : st.labels.lookup imageId = none) :
    getitem st idx =
      some { images := if st.first_caption_only then [imageId]
                       else List.replicate 5 imageId,
             captions := [], all_captions := [] } := by
  have hidx2 : st.image_ids[idx]? = some imageId := by
    rw [← List.get?_eq_getElem?]; exact hidx
  simp [getitem, hidx2, labelsOf, hlab, captionLoop]

/-- Witness for `c5_missing_captions_amended` at the concrete full-mode
dataset `noCaptionsFullState`. -/
theorem c5_missing_captions_witness :
    noCaptionsFullState.image_ids.get? 0 = some "alone.jpg" ∧
    noCaptionsFullState.labels.lookup "alone.jpg" = none ∧
    getitem noCaptionsFullState 0 =
      some { images := if noCaptionsFullState.first_caption_only then ["alone.jpg"]
                       else List.replicate 5 "alone.jpg",
             captions := [], all_captions := [] } :=
  ⟨rfl, by decide, c5_missing_captions_amended noCaptionsFullState 0 "alone.jpg" rfl (by decide)⟩

/-- Python `max` folds to an upper bound of its seed. -/
theorem le_foldl_max (xs : List Nat) (x : Nat) : x ≤ xs.foldl Nat.max x := by
  induction xs generalizing x with
  | nil => simp [List.foldl]
  | cons a as ih =>
    simpa [List.foldl] using le_trans (Nat.le_max_left x a) (ih (Nat.max x a))

/-- Python `max` folds to an upper bound of every list element. -/
theorem mem_le_foldl_max (xs : List Nat) (x a : Nat) (ha : a ∈ xs) :
    a ≤ xs.foldl Nat.max x := by
  induction xs generalizing x with
  | nil => cases ha
  | cons c cs ih =>
    rcases List.mem_cons.mp ha with rfl | hmem
    · simpa [List.foldl] using
        le_trans (Nat.le_max_right x a) (le_foldl_max cs (Nat.max x a))
    · simpa [List.foldl] using ih (Nat.max x c) hmem

/-- The fold of `Nat.max` is one of the candidates. -/
theorem foldl_max_mem (xs : List Nat) (x : Nat) : xs.foldl Nat.max x ∈ x :: xs := by
  induction xs generalizing x with
  | nil => simp [List.foldl]
  | cons a as ih =>
    have h := ih (Nat.max x a)
    rcases List.mem_cons.mp h with heq | hmem
    · have hstep : List.foldl Nat.max x (a :: as) = Nat.max x a := by
        simp [List.foldl, heq]
      rw [hstep]
      rcases Nat.le_total x a with hx | ha
      · have hmax : Nat.max x a = a := Nat.max_eq_right hx
        rw [hmax]; exact List.mem_cons_of_mem _ (List.mem_cons_self _ _)
      · have hmax : Nat.max x a = x := Nat.max_eq_left ha
        rw [hmax]; exact List.mem_cons_self _ _
    · simp [List.foldl, hmem]

/-- `listMax?` returns an attained upper bound: Python `max` semantics. -/
theorem listMax?_spec (l : List Nat) (m : Nat) (h : listMax? l = some m) :
    (∀ a ∈ l, a ≤ m) ∧ m ∈ l := by
  cases l with
  | nil => simp [listMax?] at h
  | cons x xs =>
    simp only [listMax?, Option.some.injEq] at h
    subst h
    refine ⟨?_, foldl_max_mem xs x⟩
    intro a ha
    rcases List.mem_cons.mp ha with rfl | hmem
    · exact le_foldl_max xs a
    · exact mem_le_foldl_max xs x a hmem

/-- Claim C7: when collation succeeds, `lengths` is the list of true
pre-padding caption lengths in order, the padded buffer has one row per
caption, its width is the attained maximum true length, and row `k` is
caption `k` followed by the `PAD` id 0 in every remaining column. -/
theorem c7_padding (data : List SampleOut) (b : Batch)
    (h : batchCollate data = Except.ok b) :
    b.lengths = ((data.map SampleOut.captions).flatten).map List.length ∧
    b.captions_padded.length = ((data.map SampleOut.captions).flatten).length ∧
    ∃ maxLen,
      listMax? (((data.map SampleOut.captions).flatten).map List.length) = some maxLen ∧
      (∀ l ∈ ((data.map SampleOut.captions).flatten).map List.length, l ≤ maxLen) ∧
      maxLen ∈ ((data.map SampleOut.captions).flatten).map List.length ∧
      ∀ k cap, ((data.map SampleOut.captions).flatten).get? k = some cap →
        b.captions_padded.get? k =
          some (cap ++ List.replicate (maxLen - cap.length) 0) ∧
        (cap ++ List.replicate (maxLen - cap.length) 0).length = maxLen := by
  simp only [batchCollate] at h
  split at h
  · cases h
  · split at h
    · cases h
    next maxLen hmax =>
      cases h
      obtain ⟨hub, hmem⟩ := listMax?_spec _ _ hmax
      refine ⟨rfl, List.length_map _ _, maxLen, hmax, hub, hmem, ?_⟩
      intro k cap hk
      have hle : cap.length ≤ maxLen :=
        hub cap.length (List.mem_map_of_mem List.length (List.get?_mem hk))
      constructor
      · show (((data.map SampleOut.captions).flatten).map
            (fun c => c ++ List.replicate (maxLen - c.length) 0)).get? k = _
        rw [List.get?_map, hk]
        rfl
      · simp [List.length_append, List.length_replicate, Nat.add_sub_cancel' hle]

/-- Witness for `c7_padding` at the `[3, 5, 2]` batch of the spec: width 5,
row 0 with 2 trailing pads, row 2 with 3 trailing pads, lengths unchanged. -/
theorem c7_padding_witness :
    batchCollate lenData = Except.ok lenBatch ∧
    lenBatch.lengths = ((lenData.map SampleOut.captions).flatten).map List.length ∧
    lenBatch.lengths = [3, 5, 2] ∧
    lenBatch.captions_padded = [[2, 5, 3, 0, 0], [2, 9, 9, 9, 3], [2, 3, 0, 0, 0]] :=
  ⟨rfl, (c7_padding lenData lenBatch rfl).1, by decide, by decide⟩

/-- A successful dict lookup means the pair is in the association list. -/
theorem assoc_lookup_mem {α β : Type} [BEq α] [LawfulBEq α] {l : List (α × β)}
    {a : α} {b : β} (h : l.lookup a = some b) : (a, b) ∈ l := by
  induction l with
  | nil => simp at h
  | cons p rest ih =>
    obtain ⟨k, v⟩ := p
    rw [List.lookup_cons] at h
    split at h
    next heq =>
      cases h
      have : a = k := eq_of_beq heq
      subst this
      exact List.mem_cons_self _ _
    next => exact List.mem_cons_of_mem _ (ih h)

/-- In an association list with distinct keys, membership determines the
lookup result. -/
theorem assoc_mem_lookup {α β : Type} [BEq α] [LawfulBEq α] {l : List (α × β)}
    {a : α} {b : β} (hmem : (a, b) ∈ l) (hnd : (l.map Prod.fst).Nodup) :
    l.lookup a = some b := by
  induction l with
  | nil => cases hmem
  | cons p rest ih =>
    obtain ⟨k, v⟩ := p
    rw [List.lookup_cons]
    rcases List.mem_cons.mp hmem with heq | hmem2
    · injection heq with h1 h2
      subst h1; subst h2
      simp
    · have hnd2 : (k :: rest.map Prod.fst).Nodup := by
        rw [List.map_cons] at hnd; exact hnd
      have hk : k ∉ rest.map Prod.fst := (List.nodup_cons.mp hnd2).1
      have hane : (a == k) = false := by
        refine beq_eq_false_iff_ne.mpr ?_
        intro hak
        subst hak
        exact hk (List.mem_map_of_mem Prod.fst hmem2)
      rw [hane]
      exact ih hmem2 (List.nodup_cons.mp hnd2).2

/-- The inductive invariant of the `Vocabulary` class: `idx2word` mirrors
`word2idx`, keys and ids are each duplicate-free, every assigned id is below
the running counter, and the first four entries are the reserved ones. -/
structure VocabInv (v : Vocabulary) : Prop where
  mirror : v.idx2word = v.word2idx.map (fun p => (p.2, p.1))
  keys_nodup : (v.word2idx.map Prod.fst).Nodup
  vals_nodup : (v.word2idx.map Prod.snd).Nodup
  vals_lt : ∀ p ∈ v.word2idx, p.2 < v.idx
  reserved : v.word2idx.take 4 = [(PAD, 0), (UNK_WORD, 1), (START_SEQ, 2), (END_SEQ, 3)]

/-- `__init__` establishes the invariant. -/
theorem vocabInv_init : VocabInv vocabInit :=
  ⟨rfl, by decide, by decide, by decide, rfl⟩

/-- `add_word` preserves the invariant. -/
theorem vocabInv_addWord {v : Vocabulary} (h : VocabInv v) (w : String) :
    VocabInv (addWord v w) := by
  unfold addWord
  split
  · exact h
  next hnone =>
    have hlk : v.word2idx.lookup w = none := by
      cases hv : v.word2idx.lookup w with
      | none => rfl
      | some b => rw [hv] at hnone; simp at hnone
    have hkey : w ∉ v.word2idx.map Prod.fst := by
      intro hw
      rcases List.mem_map.mp hw with ⟨p, hp, rfl⟩
      have := List.lookup_eq_none_iff.mp hlk p hp
      simp at this
    refine ⟨?_, ?_, ?_, ?_, ?_⟩
    · simp [h.mirror, List.map_append]
    · rw [List.map_append]
      refine List.Nodup.append h.keys_nodup (List.nodup_singleton _) ?_
      intro a ha hb
      simp at hb
      subst hb
      exact hkey ha
    · rw [List.map_append]
      refine List.Nodup.append h.vals_nodup (List.nodup_singleton _) ?_
      intro a ha hb
      simp at hb
      subst hb
      rcases List.mem_map.mp ha with ⟨p, hp, hpv⟩
      have := h.vals_lt p hp
      rw [hpv] at this
      exact lt_irrefl _ this
    · intro p hp
      rcases List.mem_append.mp hp with hold | hnew
      · exact Nat.lt_succ_of_lt (h.vals_lt p hold)
      · simp at hnew
        subst hnew
        exact Nat.lt_succ_self _
    · have hlen : 4 ≤ v.word2idx.length := by
        have hl := congrArg List.length h.reserved
        rw [List.length_take] at hl
        simp at hl
        omega
      rw [List.take_append_of_le_length hlen]
      exact h.reserved

/-- Any sequence of `add_word` calls preserves the invariant. -/
theorem vocabInv_foldl (v : Vocabulary) (h : VocabInv v) (ws : List String) :
    VocabInv (ws.foldl addWord v) := by
  induction ws generalizing v with
  | nil => exact h
  | cons w ws ih => exact ih _ (vocabInv_addWord h w)

/-- Every reachable vocabulary satisfies the invariant. -/
theorem reachable_inv {v : Vocabulary} (h : Reachable v) : VocabInv v := by
  obtain ⟨ws, rfl⟩ := h
  exact vocabInv_foldl _ vocabInv_init ws

/-- Under the invariant, `word2idx` and `idx2word` are exact inverses. -/
theorem inv_lookup_iff {v : Vocabulary} (h : VocabInv v) (w : String) (i : Nat) :
    v.word2idx.lookup w = some i ↔ v.idx2word.lookup i = some w := by
  constructor
  · intro hw
    have hmem : (w, i) ∈ v.word2idx := assoc_lookup_mem hw
    have hmem2 : (i, w) ∈ v.idx2word := by
      rw [h.mirror]
      exact List.mem_map_of_mem _ hmem
    refine assoc_mem_lookup hmem2 ?_
    rw [h.mirror]
    have hkeys : ((v.word2idx.map (fun p => (p.2, p.1))).map Prod.fst) =
        v.word2idx.map Prod.snd := by
      rw [List.map_map]
      rfl
    rw [hkeys]
    exact h.vals_nodup
  · intro hi
    have hmem2 : (i, w) ∈ v.idx2word := assoc_lookup_mem hi
    have hmem : (w, i) ∈ v.word2idx := by
      rw [h.mirror] at hmem2
      rcases List.mem_map.mp hmem2 with ⟨p, hp, heq⟩
      obtain ⟨a, b⟩ := p
      injection heq with h1 h2
      subst h1; subst h2
      exact hp
    exact assoc_mem_lookup hmem h.keys_nodup

/-- Under the invariant, the reserved entries keep their ids 0-3. -/
theorem inv_reserved_lookup {v : Vocabulary} (h : VocabInv v) :
    v.word2idx.lookup PAD = some 0 ∧ v.word2idx.lookup UNK_WORD = some 1 ∧
    v.word2idx.lookup START_SEQ = some 2 ∧ v.word2idx.lookup END_SEQ = some 3 := by
  have hsub : ∀ p ∈ [(PAD, 0), (UNK_WORD, 1), (START_SEQ, 2), (END_SEQ, 3)],
      p ∈ v.word2idx := by
    intro p hp
    rw [← h.reserved] at hp
    exact List.take_subset _ _ hp
  exact ⟨assoc_mem_lookup (hsub _ (by simp)) h.keys_nodup,
         assoc_mem_lookup (hsub _ (by simp)) h.keys_nodup,
         assoc_mem_lookup (hsub _ (by simp)) h.keys_nodup,
         assoc_mem_lookup (hsub _ (by simp)) h.keys_nodup⟩

/-- Claim C9: after construction and any sequence of `add_word` calls, the
word-to-id map is injective, `idx2word` is exactly its inverse, and the four
reserved entries `PAD`, `UNK`, `START`, `END` keep ids 0, 1, 2, 3 in both
directions — never reassigned or evicted. -/
theorem c9_bijection (v : Vocabulary) (hv : Reachable v) :
    (∀ w1 w2 i, v.word2idx.lookup w1 = some i → v.word2idx.lookup w2 = some i →
        w1 = w2) ∧
    (∀ w i, v.word2idx.lookup w = some i ↔ v.idx2word.lookup i = some w) ∧
    (v.word2idx.lookup PAD = some 0 ∧ v.word2idx.lookup UNK_WORD = some 1 ∧
     v.word2idx.lookup START_SEQ = some 2 ∧ v.word2idx.lookup END_SEQ = some 3) ∧
    (v.idx2word.lookup 0 = some PAD ∧ v.idx2word.lookup 1 = some UNK_WORD ∧
     v.idx2word.lookup 2 = some START_SEQ ∧ v.idx2word.lookup 3 = some END_SEQ) := by
  have h := reachable_inv hv
  obtain ⟨hp, hu, hs, he⟩ := inv_reserved_lookup h
  refine ⟨?_, fun w i => inv_lookup_iff h w i, ⟨hp, hu, hs, he⟩,
          (inv_lookup_iff h _ _).mp hp, (inv_lookup_iff h _ _).mp hu,
          (inv_lookup_iff h _ _).mp hs, (inv_lookup_iff h _ _).mp he⟩
  intro w1 w2 i h1 h2
  have e1 := (inv_lookup_iff h w1 i).mp h1
  have e2 := (inv_lookup_iff h w2 i).mp h2
  rw [e1] at e2
  exact Option.some.inj e2

/-- Witness for `c9_bijection` at the vocabulary reached by adding "dog". -/
theorem c9_bijection_witness :
    Reachable (buildFromWords ["dog"]) ∧
    (buildFromWords ["dog"]).word2idx.lookup PAD = some 0 ∧
    (buildFromWords ["dog"]).word2idx.lookup UNK_WORD = some 1 ∧
    (buildFromWords ["dog"]).word2idx.lookup START_SEQ = some 2 ∧
    (buildFromWords ["dog"]).word2idx.lookup END_SEQ = some 3 ∧
    (buildFromWords ["dog"]).idx2word.lookup 0 = some PAD :=
  ⟨⟨["dog"], rfl⟩,
   (c9_bijection _ ⟨["dog"], rfl⟩).2.2.1.1,
   (c9_bijection _ ⟨["dog"], rfl⟩).2.2.1.2.1,
   (c9_bijection _ ⟨["dog"], rfl⟩).2.2.1.2.2.1,
   (c9_bijection _ ⟨["dog"], rfl⟩).2.2.1.2.2.2,
   (c9_bijection _ ⟨["dog"], rfl⟩).2.2.2.1⟩

/-- Claim C6: on any reachable vocabulary, `decode_seq` after `encode_seq`
returns the original tokens whenever every token is present; an absent token
encodes to the `UNK` id 1, and decoding that id yields the `UNK` symbol,
which is not the original token. -/
theorem c6_encode_decode (v : Vocabulary) (hv : Reachable v) :
    (∀ tokens : List String, (∀ t ∈ tokens, (v.word2idx.lookup t).isSome) →
        ∃ ids, encode_seq v tokens = some ids ∧ decode_seq v ids = some tokens) ∧
    (∀ t : String, v.word2idx.lookup t = none →
        vocabCall v t = some 1 ∧ v.idx2word.lookup 1 = some UNK_WORD ∧
        t ≠ UNK_WORD) := by
  have h := reachable_inv hv
  have hunk : v.word2idx.lookup UNK_WORD = some 1 := (inv_reserved_lookup h).2.1
  constructor
  · intro tokens
    induction tokens with
    | nil => exact fun _ => ⟨[], rfl, rfl⟩
    | cons t ts ih =>
      intro hall
      obtain ⟨i, hi⟩ :=
        Option.isSome_iff_exists.mp (hall t (List.mem_cons_self _ _))
      obtain ⟨ids, henc, hdec⟩ := ih (fun u hu => hall u (List.mem_cons_of_mem _ hu))
      refine ⟨i :: ids, ?_, ?_⟩
      · show List.mapM (vocabCall v) (t :: ts) = some (i :: ids)
        have hv2 : vocabCall v t = some i := by simp [vocabCall, hi]
        have henc2 : List.mapM (vocabCall v) ts = some ids := henc
        rw [List.mapM_cons, hv2, henc2]
        rfl
      · show List.mapM (fun j => v.idx2word.lookup j) (i :: ids) = some (t :: ts)
        have hdec2 : List.mapM (fun j => v.idx2word.lookup j) ids = some ts := hdec
        rw [List.mapM_cons, (inv_lookup_iff h t i).mp hi, hdec2]
        rfl
  · intro t ht
    refine ⟨by simp [vocabCall, ht, hunk], (inv_lookup_iff h _ _).mp hunk, ?_⟩
    intro heq
    rw [heq, hunk] at ht
    cases ht

/-- Witness for `c6_encode_decode`: round trip of `[START, "cat", END]` on
the vocabulary containing "cat", and the `UNK` fallback for "zebra". -/
theorem c6_encode_decode_witness :
    Reachable (buildFromWords ["cat"]) ∧
    (∃ ids, encode_seq (buildFromWords ["cat"]) [START_SEQ, "cat", END_SEQ] = some ids ∧
        decode_seq (buildFromWords ["cat"]) ids = some [START_SEQ, "cat", END_SEQ]) ∧
    vocabCall (buildFromWords ["cat"]) "zebra" = some 1 ∧
    (buildFromWords ["cat"]).idx2word.lookup 1 = some UNK_WORD ∧
    "zebra" ≠ UNK_WORD :=
  ⟨⟨["cat"], rfl⟩,
   (c6_encode_decode _ ⟨["cat"], rfl⟩).1 _ (by decide),
   ((c6_encode_decode _ ⟨["cat"], rfl⟩).2 "zebra" (by decide)).1,
   ((c6_encode_decode _ ⟨["cat"], rfl⟩).2 "zebra" (by decide)).2.1,
   ((c6_encode_decode _ ⟨["cat"], rfl⟩).2 "zebra" (by decide)).2.2⟩

/-- `EarlyStopping.__call__` never touches `mode` or `threshold`. -/
theorem esCall_preserves (u : EarlyStopping) (score : Rat) :
    (esCall u score).1.mode = u.mode ∧ (esCall u score).1.threshold = u.threshold := by
  unfold esCall
  by_cases h1 : better_score u score == some true
  · simp [h1]
  · simp [h1]
    by_cases h2 : u.num_bad_epoch + 1 ≥ u.patience
    · simp [h2]
    · simp [h2]

/-- In `"max"` mode one call updates `best_score` to the new score exactly
when `score - best_score > threshold`, and keeps it otherwise. -/
theorem esCall_best (u : EarlyStopping) (score : Rat) (hum : u.mode = "max") :
    (esCall u score).1.best_score =
      if u.threshold < score - u.best_score then score else u.best_score := by
  unfold esCall better_score
  rw [hum]
  by_cases hc : u.threshold < score - u.best_score
  · simp [hc]
  · simp [hc]
    split <;> rfl

/-- Claim C10, counterexample: with a negative threshold (the constructor
accepts any), a `"max"`-mode `EarlyStopping` can lower its `best_score`:
from the initial state with `threshold = -2`, the call with score `-1`
satisfies `score - best_score = -1 > -2` and overwrites `best_score = 0`
with `-1`, so `best_score` is not non-decreasing as claimed. -/
theorem c10_counter :
    (esCall (earlyStoppingInit 5 (-2)) (-1)).1.best_score <
      (earlyStoppingInit 5 (-2)).best_score := by
  norm_num [esCall, better_score, earlyStoppingInit]

/-- Claim C10, amended: for a `"max"`-mode `EarlyStopping` with a
non-negative threshold (as the default `0.0001`), `best_score` is updated
to the new score exactly when `score - best_score > threshold` and left
unchanged otherwise, and it is non-decreasing across any sequence of
`__call__` invocations. -/
theorem c10_best_score (s : EarlyStopping) (hm : s.mode = "max")
    (ht : 0 ≤ s.threshold) :
    (∀ score : Rat, (esCall s score).1.best_score =
        if s.threshold < score - s.best_score then score else s.best_score) ∧
    (∀ scores : List Rat, s.best_score ≤ (esRun s scores).best_score) := by
  constructor
  · intro score; exact esCall_best s score hm
  · have hmono : ∀ (scores : List Rat) (u : EarlyStopping), u.mode = "max" →
        0 ≤ u.threshold → u.best_score ≤ (esRun u scores).best_score := by
      intro scores
      induction scores with
      | nil => intro u _ _; exact le_refl _
      | cons sc rest ih =>
        intro u hum hut
        obtain ⟨h2, h3⟩ := esCall_preserves u sc
        have hle : u.best_score ≤ (esCall u sc).1.best_score := by
          rw [esCall_best u sc hum]
          by_cases hc : u.threshold < sc - u.best_score
          · rw [if_pos hc]; linarith
          · rw [if_neg hc]
        have hrun : esRun u (sc :: rest) = esRun (esCall u sc).1 rest := rfl
        rw [hrun]
        exact hle.trans (ih (esCall u sc).1 (by rw [h2, hum]) (by rw [h3]; exact hut))
    exact fun scores => hmono scores s hm ht

/-- Witness for `c10_best_score` at the default threshold `0.0001`. -/
theorem c10_best_score_witness :
    (earlyStoppingInit 5 (1/10000)).mode = "max" ∧
    0 ≤ (earlyStoppingInit 5 (1/10000)).threshold ∧
    (esCall (earlyStoppingInit 5 (1/10000)) 1).1.best_score =
      (if (earlyStoppingInit 5 (1/10000)).threshold <
          1 - (earlyStoppingInit 5 (1/10000)).best_score then (1 : Rat)
       else (earlyStoppingInit 5 (1/10000)).best_score) ∧
    (earlyStoppingInit 5 (1/10000)).best_score ≤
      (esRun (earlyStoppingInit 5 (1/10000)) [1, 1/2]).best_score :=
  ⟨rfl, by norm_num [earlyStoppingInit],
   (c10_best_score _ rfl (by norm_num [earlyStoppingInit])).1 1,
   (c10_best_score _ rfl (by norm_num [earlyStoppingInit])).2 [1, 1/2]⟩

/-- `add_word` never changes an existing entry. -/
theorem addWord_lookup_some {v : Vocabulary} {u : String} {i : Nat}
    (h : v.word2idx.lookup u = some i) (w : String) :
    (addWord v w).word2idx.lookup u = some i := by
  unfold addWord
  split
  · exact h
  · show (v.word2idx ++ [(w, v.idx)]).lookup u = some i
    rw [List.lookup_append, h]
    rfl

/-- `add_word` of a different word keeps an absent word absent. -/
theorem addWord_lookup_none {v : Vocabulary} {u : String}
    (h : v.word2idx.lookup u = none) {w : String} (hne : u ≠ w) :
    (addWord v w).word2idx.lookup u = none := by
  unfold addWord
  split
  · exact h
  · show (v.word2idx ++ [(w, v.idx)]).lookup u = none
    rw [List.lookup_append, h]
    show List.lookup u [(w, v.idx)] = none
    rw [List.lookup_cons]
    rw [beq_eq_false_iff_ne.mpr hne]
    rfl

/-- `add_word` of a fresh word stores it under the current counter and
increments the counter. -/
theorem addWord_fresh {v : Vocabulary} {w : String}
    (h : v.word2idx.lookup w = none) :
    (addWord v w).word2idx.lookup w = some v.idx ∧ (addWord v w).idx = v.idx + 1 := by
  unfold addWord
  rw [h]
  simp only [Option.isSome_none, Bool.false_eq_true, if_false]
  constructor
  · rw [List.lookup_append, h]
    show List.lookup w [(w, v.idx)] = some v.idx
    exact List.lookup_cons_self
  · trivial

/-- After `add_word w`, the word `w` is present. -/
theorem addWord_lookup_self (v : Vocabulary) (w : String) :
    ((addWord v w).word2idx.lookup w).isSome := by
  cases h : v.word2idx.lookup w with
  | some i => rw [addWord_lookup_some h w]; rfl
  | none => rw [(addWord_fresh h).1]; rfl

/-- Existing entries survive any sequence of `add_word` calls. -/
theorem foldl_addWord_lookup_some {ws : List String} {v : Vocabulary} {u : String}
    {i : Nat} (h : v.word2idx.lookup u = some i) :
    (ws.foldl addWord v).word2idx.lookup u = some i := by
  induction ws generalizing v with
  | nil => exact h
  | cons w ws ih => exact ih (addWord_lookup_some h w)

/-- A word added by none of the calls stays absent. -/
theorem foldl_addWord_lookup_none {ws : List String} {v : Vocabulary} {u : String}
    (h : v.word2idx.lookup u = none) (hnm : u ∉ ws) :
    (ws.foldl addWord v).word2idx.lookup u = none := by
  induction ws generalizing v with
  | nil => exact h
  | cons w ws ih =>
    have hne : u ≠ w := fun e => hnm (e ▸ List.mem_cons_self _ _)
    exact ih (addWord_lookup_none h hne) (fun hm => hnm (List.mem_cons_of_mem _ hm))

/-- Presence survives any sequence of `add_word` calls. -/
theorem foldl_addWord_isSome {ws : List String} {v : Vocabulary} {u : String}
    (h : (v.word2idx.lookup u).isSome) :
    ((ws.foldl addWord v).word2idx.lookup u).isSome := by
  obtain ⟨i, hi⟩ := Option.isSome_iff_exists.mp h
  rw [foldl_addWord_lookup_some hi]
  rfl

/-- Every word in the added list ends up present. -/
theorem foldl_addWord_mem_isSome {ws : List String} (v : Vocabulary) {u : String}
    (hm : u ∈ ws) : ((ws.foldl addWord v).word2idx.lookup u).isSome := by
  induction ws generalizing v with
  | nil => cases hm
  | cons w ws ih =>
    rcases List.mem_cons.mp hm with rfl | hm2
    · show ((ws.foldl addWord (addWord v u)).word2idx.lookup u).isSome
      exact foldl_addWord_isSome (addWord_lookup_self v u)
    · exact ih _ hm2

/-- Adding a duplicate-free list of fresh words assigns consecutive ids
starting at the current counter, in list order. -/
theorem foldl_addWord_get (ws : List String) (v : Vocabulary) (hnd : ws.Nodup)
    (hfresh : ∀ w ∈ ws, v.word2idx.lookup w = none) :
    ∀ k (hk : k < ws.length),
      (ws.foldl addWord v).word2idx.lookup (ws.get ⟨k, hk⟩) = some (v.idx + k) := by
  induction ws generalizing v with
  | nil => intro k hk; cases hk
  | cons w ws ih =>
    intro k hk
    have hwfresh : v.word2idx.lookup w = none := hfresh w (List.mem_cons_self _ _)
    obtain ⟨hsome, hidx⟩ := addWord_fresh hwfresh
    have hnd2 := List.nodup_cons.mp hnd
    cases k with
    | zero =>
      show (ws.foldl addWord (addWord v w)).word2idx.lookup w = some (v.idx + 0)
      rw [Nat.add_zero]
      exact foldl_addWord_lookup_some hsome
    | succ k =>
      have hfresh2 : ∀ u ∈ ws, (addWord v w).word2idx.lookup u = none := by
        intro u hu
        exact addWord_lookup_none (hfresh u (List.mem_cons_of_mem _ hu))
          (fun e => hnd2.1 (e ▸ hu))
      have hres := ih (addWord v w) hnd2.2 hfresh2 k (Nat.lt_of_succ_lt_succ hk)
      rw [hidx] at hres
      show (ws.foldl addWord (addWord v w)).word2idx.lookup (ws.get ⟨k, _⟩) =
        some (v.idx + (k + 1))
      rw [hres]
      congr 1
      omega

/-- One counter update keeps the key list, appending the key when new. -/
theorem counterAdd_keys (l : List (String × Nat)) (t : String) :
    (counterAdd l t).map Prod.fst =
      if t ∈ l.map Prod.fst then l.map Prod.fst else l.map Prod.fst ++ [t] := by
  induction l with
  | nil => simp [counterAdd]
  | cons p rest ih =>
    obtain ⟨k, c⟩ := p
    by_cases h : k = t
    · subst h
      simp [counterAdd]
    · have hb : (k == t) = false := beq_eq_false_iff_ne.mpr h
      simp only [counterAdd, hb, Bool.false_eq_true, if_false, List.map_cons, ih]
      by_cases hm : t ∈ rest.map Prod.fst
      · rw [if_pos hm, if_pos (List.mem_cons_of_mem _ hm)]
      · have hnin : t ∉ k :: rest.map Prod.fst := by
          intro hin
          rcases List.mem_cons.mp hin with e | hin2
          · exact h e.symm
          · exact hm hin2
        rw [if_neg hm, if_neg hnin, List.cons_append]

/-- Counter updates preserve duplicate-freedom of the keys. -/
theorem counterAdd_keys_nodup {l : List (String × Nat)}
    (h : (l.map Prod.fst).Nodup) (t : String) :
    ((counterAdd l t).map Prod.fst).Nodup := by
  rw [counterAdd_keys]
  by_cases hm : t ∈ l.map Prod.fst
  · rw [if_pos hm]; exact h
  · rw [if_neg hm]
    refine List.Nodup.append h (List.nodup_singleton _) ?_
    intro a ha hb
    simp at hb
    subst hb
    exact hm ha

/-- Counting a token list preserves duplicate-freedom of the keys. -/
theorem counterFold_keys_nodup (ts : List String) (l : List (String × Nat))
    (h : (l.map Prod.fst).Nodup) :
    ((ts.foldl counterAdd l).map Prod.fst).Nodup := by
  induction ts generalizing l with
  | nil => exact h
  | cons t ts ih => exact ih _ (counterAdd_keys_nodup h t)

/-- The token counter of `get_vocabulary` has duplicate-free keys. -/
theorem tokenCounts_keys_nodup (comments : List String) :
    ((tokenCounts comments).map Prod.fst).Nodup := by
  unfold tokenCounts
  have hgen : ∀ (cs : List String) (l : List (String × Nat)),
      (l.map Prod.fst).Nodup →
      ((cs.foldl (fun tc comment =>
          (tokenize (pyStrip comment)).foldl counterAdd tc) l).map Prod.fst).Nodup := by
    intro cs
    induction cs with
    | nil => exact fun l h => h
    | cons c cs ih => exact fun l h => ih _ (counterFold_keys_nodup _ _ h)
  exact hgen comments [] (by simp)

/-- Every token the tokenizer emits consists of alphanumeric characters
only (it is the output of the stripping substitution). -/
theorem tokenize_all_alnum (s : String) :
    ∀ t ∈ tokenize s, t.data.all Char.isAlphanum := by
  intro t ht
  unfold tokenize at ht
  have ht2 := List.mem_of_mem_filter ht
  rcases List.mem_map.mp ht2 with ⟨u, _, rfl⟩
  show ((u.data.map Char.toLower).filter Char.isAlphanum).all Char.isAlphanum = true
  rw [List.all_eq_true]
  intro c hc
  exact (List.mem_filter.mp hc).2

/-- A key predicate is preserved by one counter update. -/
theorem counterAdd_pred (P : String → Prop) (l : List (String × Nat)) (t : String)
    (hPt : P t) (hl : ∀ p ∈ l, P p.1) : ∀ p ∈ counterAdd l t, P p.1 := by
  induction l with
  | nil =>
    intro p hp
    simp [counterAdd] at hp
    subst hp
    exact hPt
  | cons q rest ih =>
    obtain ⟨k, c⟩ := q
    intro p hp
    unfold counterAdd at hp
    split at hp
    · rcases List.mem_cons.mp hp with rfl | hm
      · exact hl (k, c) (List.mem_cons_self _ _)
      · exact hl p (List.mem_cons_of_mem _ hm)
    · rcases List.mem_cons.mp hp with rfl | hm
      · exact hl (k, c) (List.mem_cons_self _ _)
      · exact ih (fun q hq => hl q (List.mem_cons_of_mem _ hq)) p hm

/-- A key predicate holding for all counted tokens holds for all keys. -/
theorem counterFold_pred (P : String → Prop) (ts : List String)
    (l : List (String × Nat)) (hts : ∀ t ∈ ts, P t) (hl : ∀ p ∈ l, P p.1) :
    ∀ p ∈ ts.foldl counterAdd l, P p.1 := by
  induction ts generalizing l with
  | nil => exact hl
  | cons t ts ih =>
    exact ih _ (fun u hu => hts u (List.mem_cons_of_mem _ hu))
      (counterAdd_pred P l t (hts t (List.mem_cons_self _ _)) hl)

/-- Every counter key is an alphanumeric-only token. -/
theorem tokenCounts_keys_alnum (comments : List String) :
    ∀ p ∈ tokenCounts comments, p.1.data.all Char.isAlphanum := by
  unfold tokenCounts
  have hgen : ∀ (cs : List String) (l : List (String × Nat)),
      (∀ p ∈ l, p.1.data.all Char.isAlphanum) →
      ∀ p ∈ cs.foldl (fun tc comment =>
          (tokenize (pyStrip comment)).foldl counterAdd tc) l,
        p.1.data.all Char.isAlphanum := by
    intro cs
    induction cs with
    | nil => exact fun l h => h
    | cons c cs ih =>
      intro l h
      exact ih _ (counterFold_pred _ _ _ (tokenize_all_alnum (pyStrip c)) h)
  exact hgen comments [] (by simp)

/-- An alphanumeric-only token is none of the reserved tokens, so the fresh
vocabulary does not contain it. -/
theorem alnum_not_reserved {t : String} (h : t.data.all Char.isAlphanum) :
    vocabInit.word2idx.lookup t = none := by
  have hne : ∀ r : String, ¬(r.data.all Char.isAlphanum = true) → t ≠ r := by
    intro r hr e
    subst e
    exact hr h
  have h1 : t ≠ PAD := hne PAD (by decide)
  have h2 : t ≠ UNK_WORD := hne UNK_WORD (by decide)
  have h3 : t ≠ START_SEQ := hne START_SEQ (by decide)
  have h4 : t ≠ END_SEQ := hne END_SEQ (by decide)
  show List.lookup t [(PAD, 0), (UNK_WORD, 1), (START_SEQ, 2), (END_SEQ, 3)] = none
  rw [List.lookup_cons, beq_eq_false_iff_ne.mpr h1]
  rw [List.lookup_cons, beq_eq_false_iff_ne.mpr h2]
  rw [List.lookup_cons, beq_eq_false_iff_ne.mpr h3]
  rw [List.lookup_cons, beq_eq_false_iff_ne.mpr h4]
  rfl

/-- The conditional `add_word` fold of `get_vocabulary` equals the plain
`add_word` fold over the qualifying keys. -/
theorem foldl_if_filter (l : List (String × Nat)) (v : Vocabulary) :
    l.foldl (fun v tc => if tc.2 >= 5 then addWord v tc.1 else v) v =
      ((l.filter (fun tc => tc.2 >= 5)).map Prod.fst).foldl addWord v := by
  induction l generalizing v with
  | nil => rfl
  | cons p rest ih =>
    by_cases h : p.2 >= 5
    · rw [List.foldl_cons, if_pos h, List.filter_cons_of_pos (by simpa using h),
        List.map_cons, List.foldl_cons]
      exact ih _
    · rw [List.foldl_cons, if_neg h, List.filter_cons_of_neg (by simpa using h)]
      exact ih _

/-- `get_vocabulary` is the `add_word` fold of the qualifying tokens over a
fresh vocabulary. -/
theorem get_vocabulary_eq_foldl (comments : List String) :
    get_vocabulary comments = (qualifyingTokens comments).foldl addWord vocabInit :=
  foldl_if_filter (tokenCounts comments) vocabInit

/-- Claim C8: with the hard-coded threshold 5, a token counted exactly 5
times (or more) is assigned an id, a token counted fewer than 5 times is
absent and encodes to the `UNK` id 1, and the qualifying tokens receive the
fresh ids `4 + k` in first-encountered (counter) order. -/
theorem c8_frequency_threshold (comments : List String) :
    (∀ t c, (tokenCounts comments).lookup t = some c → 5 ≤ c →
        ((get_vocabulary comments).word2idx.lookup t).isSome) ∧
    (∀ t c, (tokenCounts comments).lookup t = some c → c < 5 →
        (get_vocabulary comments).word2idx.lookup t = none ∧
        vocabCall (get_vocabulary comments) t = some 1) ∧
    (∀ k (hk : k < (qualifyingTokens comments).length),
        (get_vocabulary comments).word2idx.lookup
          ((qualifyingTokens comments).get ⟨k, hk⟩) = some (4 + k)) := by
  have hnd := tokenCounts_keys_nodup comments
  have halnum := tokenCounts_keys_alnum comments
  have heq := get_vocabulary_eq_foldl comments
  have hqual_sub : ∀ u ∈ qualifyingTokens comments,
      ∃ c, (u, c) ∈ tokenCounts comments ∧ 5 ≤ c := by
    intro u hu
    rcases List.mem_map.mp hu with ⟨p, hp, rfl⟩
    have hp2 := List.mem_filter.mp hp
    exact ⟨p.2, hp2.1, by simpa using hp2.2⟩
  have hqual_fresh : ∀ u ∈ qualifyingTokens comments,
      vocabInit.word2idx.lookup u = none := by
    intro u hu
    obtain ⟨c, hmem, _⟩ := hqual_sub u hu
    exact alnum_not_reserved (halnum (u, c) hmem)
  have hqual_nodup : (qualifyingTokens comments).Nodup := by
    have hsub : List.Sublist
        (((tokenCounts comments).filter (fun tc => tc.2 ≥ 5)).map Prod.fst)
        ((tokenCounts comments).map Prod.fst) :=
      List.Sublist.map Prod.fst (List.filter_sublist _)
    exact List.Nodup.sublist hsub hnd
  refine ⟨?_, ?_, ?_⟩
  · intro t c hlk hc
    have hmem : (t, c) ∈ tokenCounts comments := assoc_lookup_mem hlk
    have hmemf : (t, c) ∈ (tokenCounts comments).filter (fun tc => tc.2 ≥ 5) :=
      List.mem_filter.mpr ⟨hmem, by simpa using hc⟩
    have htq : t ∈ qualifyingTokens comments := List.mem_map_of_mem Prod.fst hmemf
    rw [heq]
    exact foldl_addWord_mem_isSome _ htq
  · intro t c hlk hc
    have hmem : (t, c) ∈ tokenCounts comments := assoc_lookup_mem hlk
    have htnot : t ∉ qualifyingTokens comments := by
      intro htq
      obtain ⟨c2, hmem2, hc2⟩ := hqual_sub t htq
      have l1 := assoc_mem_lookup hmem hnd
      have l2 := assoc_mem_lookup hmem2 hnd
      rw [l1] at l2
      have hcc : c = c2 := Option.some.inj l2
      omega
    have hfresh : vocabInit.word2idx.lookup t = none :=
      alnum_not_reserved (halnum (t, c) hmem)
    have hnone : (get_vocabulary comments).word2idx.lookup t = none := by
      rw [heq]
      exact foldl_addWord_lookup_none hfresh htnot
    refine ⟨hnone, ?_⟩
    have hunk : (get_vocabulary comments).word2idx.lookup UNK_WORD = some 1 := by
      rw [heq]
      exact foldl_addWord_lookup_some (by decide)
    simp [vocabCall, hnone, hunk]
  · intro k hk
    rw [heq]
    exact foldl_addWord_get (qualifyingTokens comments) vocabInit
      hqual_nodup hqual_fresh k hk

/-- Witness for `c8_frequency_threshold` on `boundaryCorpus`, where "dog"
has frequency exactly 5 and "cat" frequency 4. -/
theorem c8_witness :
    (tokenCounts boundaryCorpus).lookup "dog" = some 5 ∧
    ((get_vocabulary boundaryCorpus).word2idx.lookup "dog").isSome ∧
    (tokenCounts boundaryCorpus).lookup "cat" = some 4 ∧
    (get_vocabulary boundaryCorpus).word2idx.lookup "cat" = none ∧
    vocabCall (get_vocabulary boundaryCorpus) "cat" = some 1 ∧
    (get_vocabulary boundaryCorpus).word2idx.lookup
      ((qualifyingTokens boundaryCorpus).get ⟨0, by decide⟩) = some (4 + 0) :=
  ⟨by decide,
   (c8_frequency_threshold boundaryCorpus).1 "dog" 5 (by decide) (by decide),
   by decide,
   ((c8_frequency_threshold boundaryCorpus).2.1 "cat" 4 (by decide) (by decide)).1,
   ((c8_frequency_threshold boundaryCorpus).2.1 "cat" 4 (by decide) (by decide)).2,
   (c8_frequency_threshold boundaryCorpus).2.2 0 (by decide)⟩
